import Mathlib

/-!
Shallow embedding of the signaling relay server (src/server/server.js).

Connections are identified by natural numbers (opaque ws handles).  The
two global registries of the server,

  const clients = new Map();   -- ws -> session record
  const rooms = new Map();     -- roomId -> Set of ws

are modelled as insertion-ordered association lists, matching the
iteration-order semantics of JavaScript Map and Set (Map.set keeps the
position of an existing key and appends a fresh one; Set.add appends if
absent; delete removes the entry and keeps the order of the rest).

The transport readyState of each connection is a parameter
isOpen : Nat -> Bool supplied to the handlers that consult it.  A send
performed by the code is recorded as a trace event (recipient, message);
the handlers return the new state together with the trace of sends, in
the order the code performs them.

generateUserId draws from Math.random; the generated id is passed to
handleJoin as an explicit argument (an oracle input), which is the only
faithful rendering of a fresh random string.

clients.get on a connection that is absent from the registry yields
undefined in JavaScript, and reading a field of it would throw; infoOf
returns a default record instead, and every theorem that evaluates a
roster does so under a hypothesis making each inspected member
registered, where the two behaviours agree.
-/

/-- The session record stored in the clients map by handleJoin:
clients.set(ws, immutable record of userId, username, roomId). -/
structure Session where
  userId : String
  username : String
  roomId : String
deriving DecidableEq, Repr

/-- A roster entry as built by handleJoin and updateUserList. -/
structure UserInfo where
  userId : String
  username : String
deriving DecidableEq, Repr

/-- Parsed client-to-server messages, by the type tag of the dispatch
switch; unknown covers any unrecognized type tag. -/
inductive ClientMsg where
  | join (username roomId : String)
  | signal (targetId payload : String)
  | leave
  | unknown (ty : String)
deriving DecidableEq, Repr

/-- Server-to-client messages, as serialized by the handlers.  The
opaque signal payload is modelled as a string. -/
inductive ServerMsg where
  | roomJoined (roomId userId : String) (users : List UserInfo)
  | userJoined (userId username : String)
  | userList (users : List UserInfo)
  | userLeft (userId username : String)
  | signal (fromId payload : String)
deriving DecidableEq, Repr

/-- The two global registries of the server. -/
structure ServerState where
  clients : List (Nat × Session)
  rooms : List (String × List Nat)
deriving DecidableEq, Repr

/-- Trace of performed sends: (recipient connection, message), in order. -/
abbrev Trace := List (Nat × ServerMsg)

/-! ### Association-list rendering of JavaScript Map, and of Set -/

/-- Map.get: the value at the first entry with the given key. -/
def alistGet {α β : Type} [DecidableEq α] : List (α × β) → α → Option β
  | [], _ => none
  | p :: rest, k => if p.1 = k then some p.2 else alistGet rest k

/-- Map.has. -/
def alistHas {α β : Type} [DecidableEq α] (m : List (α × β)) (k : α) : Bool :=
  (alistGet m k).isSome

/-- Map.set: update an existing key in place, else append at the end. -/
def alistSet {α β : Type} [DecidableEq α] : List (α × β) → α → β → List (α × β)
  | [], k, v => [(k, v)]
  | p :: rest, k, v => if p.1 = k then (k, v) :: rest else p :: alistSet rest k v

/-- Map.delete: remove the entry with the given key. -/
def alistDelete {α β : Type} [DecidableEq α] : List (α × β) → α → List (α × β)
  | [], _ => []
  | p :: rest, k => if p.1 = k then alistDelete rest k else p :: alistDelete rest k

/-- An in-place update of the value stored at a key (mutation of the Set
object held in the rooms map). -/
def alistModify {α β : Type} [DecidableEq α] (m : List (α × β)) (k : α) (f : β → β) :
    List (α × β) :=
  m.map fun p => if p.1 = k then (p.1, f p.2) else p

/-- Set.add: append if not already a member. -/
def setAdd (l : List Nat) (x : Nat) : List Nat :=
  if x ∈ l then l else l ++ [x]

/-- Set.delete: remove the occurrence of x, keeping the order. -/
def setDelete : List Nat → Nat → List Nat
  | [], _ => []
  | y :: rest, x => if y = x then setDelete rest x else y :: setDelete rest x

/-! ### The server operations -/

/-- The roster entry for a connection: the userId and username fields of
clients.get(c).  (In JavaScript an unregistered c would make the field
read throw; theorems only evaluate this under registration hypotheses.) -/
def infoOf (clients : List (Nat × Session)) (c : Nat) : UserInfo :=
  match alistGet clients c with
  | some i => ⟨i.userId, i.username⟩
  | none => ⟨"", ""⟩

/-- broadcastToRoom(roomId, message, excludeWs): send to every member of
the room that is not the excluded connection and whose readyState is
OPEN; no room, no sends. -/
def broadcastToRoom (isOpen : Nat → Bool) (s : ServerState) (roomId : String)
    (msg : ServerMsg) (excludeWs : Option Nat) : Trace :=
  match alistGet s.rooms roomId with
  | none => []
  | some members =>
      (members.filter fun c => decide (some c ≠ excludeWs) && isOpen c).map fun c => (c, msg)

/-- updateUserList(roomId): broadcast the freshly computed roster of the
room to the whole room, with no exclusion. -/
def updateUserList (isOpen : Nat → Bool) (s : ServerState) (roomId : String) : Trace :=
  match alistGet s.rooms roomId with
  | none => []
  | some members =>
      broadcastToRoom isOpen s roomId (ServerMsg.userList (members.map (infoOf s.clients))) none

/-- handleJoin(ws, data): bind the session under the freshly generated
userId, create the room if absent, add ws to it, reply to ws with the
roster of the other members, notify the others, broadcast the roster. -/
def handleJoin (isOpen : Nat → Bool) (s : ServerState) (ws : Nat)
    (username roomId userId : String) : ServerState × Trace :=
  let clients1 := alistSet s.clients ws ⟨userId, username, roomId⟩
  let rooms1 := if alistHas s.rooms roomId then s.rooms else alistSet s.rooms roomId []
  let rooms2 := alistModify rooms1 roomId (fun m => setAdd m ws)
  let s1 : ServerState := ⟨clients1, rooms2⟩
  let members := (alistGet rooms2 roomId).getD []
  let existingUsers := (members.filter fun c => decide (c ≠ ws)).map (infoOf clients1)
  let t1 : Trace := [(ws, ServerMsg.roomJoined roomId userId existingUsers)]
  let t2 := broadcastToRoom isOpen s1 roomId (ServerMsg.userJoined userId username) (some ws)
  let t3 := updateUserList isOpen s1 roomId
  (s1, t1 ++ t2 ++ t3)

/-- The for-of loop of handleSignal over clients.entries(): first entry
whose session matches the target id and the room of the sender; break
after it. -/
def findTarget : List (Nat × Session) → String → String → Option Nat
  | [], _, _ => none
  | p :: rest, targetId, senderRoom =>
      if p.2.userId = targetId ∧ p.2.roomId = senderRoom then some p.1
      else findTarget rest targetId senderRoom

/-- handleSignal(ws, data): drop if the sender has no session; otherwise
send the payload to the first registry entry matching targetId in the
room of the sender, without consulting readyState. -/
def handleSignal (s : ServerState) (ws : Nat) (targetId payload : String) :
    ServerState × Trace :=
  match alistGet s.clients ws with
  | none => (s, [])
  | some sender =>
      match findTarget s.clients targetId sender.roomId with
      | none => (s, [])
      | some c => (s, [(c, ServerMsg.signal sender.userId payload)])

/-- handleLeave(ws): no-op without a session; otherwise remove ws from
its room, delete the room if it became empty, else broadcast user-left
followed by the refreshed roster; finally delete the registry entry. -/
def handleLeave (isOpen : Nat → Bool) (s : ServerState) (ws : Nat) : ServerState × Trace :=
  match alistGet s.clients ws with
  | none => (s, [])
  | some info =>
      if alistHas s.rooms info.roomId then
        let rooms1 := alistModify s.rooms info.roomId fun m => setDelete m ws
        let remaining := (alistGet rooms1 info.roomId).getD []
        if remaining.isEmpty then
          (⟨alistDelete s.clients ws, alistDelete rooms1 info.roomId⟩, [])
        else
          let s1 : ServerState := ⟨s.clients, rooms1⟩
          let t1 := broadcastToRoom isOpen s1 info.roomId
            (ServerMsg.userLeft info.userId info.username) none
          let t2 := updateUserList isOpen s1 info.roomId
          (⟨alistDelete s.clients ws, rooms1⟩, t1 ++ t2)
      else
        (⟨alistDelete s.clients ws, s.rooms⟩, [])

/-- The per-message handler: JSON.parse failure (modelled as none) is
caught, discarding the message; otherwise dispatch on the type tag, the
default branch only logging.  freshId is the Math.random oracle consumed
when the message is a join. -/
def onMessage (isOpen : Nat → Bool) (s : ServerState) (ws : Nat)
    (raw : Option ClientMsg) (freshId : String) : ServerState × Trace :=
  match raw with
  | none => (s, [])
  | some (ClientMsg.join username roomId) => handleJoin isOpen s ws username roomId freshId
  | some (ClientMsg.signal targetId payload) => handleSignal s ws targetId payload
  | some ClientMsg.leave => handleLeave isOpen s ws
  | some (ClientMsg.unknown _) => (s, [])

/-- The close event handler: handleLeave. -/
def onClose (isOpen : Nat → Bool) (s : ServerState) (ws : Nat) : ServerState × Trace :=
  handleLeave isOpen s ws

/-- The error event handler: console.error only, no state change, no send. -/
def onError (s : ServerState) (_ws : Nat) : ServerState × Trace :=
  (s, [])

/-- Sequential processing of inbound messages of one connection stream:
each item is (ws, parsed-or-malformed payload, fresh id oracle). -/
def processMessages (isOpen : Nat → Bool) :
    List (Nat × Option ClientMsg × String) → ServerState → ServerState × Trace
  | [], s => (s, [])
  | (ws, raw, fid) :: rest, s =>
      let r1 := onMessage isOpen s ws raw fid
      let r2 := processMessages isOpen rest r1.1
      (r2.1, r1.2 ++ r2.2)

/-- The invariant of the room directory maintained by the server: the
underlying JavaScript Map has pairwise distinct keys, and every room
entry holds a non-empty member set, so a room identifier is present in
the directory exactly when it has at least one member. -/
def roomsWF (s : ServerState) : Prop :=
  (s.rooms.map Prod.fst).Nodup ∧ ∀ p ∈ s.rooms, p.2 ≠ []

instance (s : ServerState) : Decidable (roomsWF s) := by
  unfold roomsWF
  infer_instance

/-! ### Concrete states used to instantiate the theorems -/

/-- alice and bob share room r, carol is alone in room q. -/
def exState : ServerState :=
  ⟨[(1, ⟨"u1", "alice", "r"⟩), (2, ⟨"u2", "bob", "r"⟩), (3, ⟨"u3", "carol", "q"⟩)],
   [("r", [1, 2]), ("q", [3])]⟩

/-- bob and carol carry the same userId uX inside room r. -/
def dupState : ServerState :=
  ⟨[(1, ⟨"u1", "alice", "r"⟩), (2, ⟨"uX", "bob", "r"⟩), (3, ⟨"uX", "carol", "r"⟩)],
   [("r", [1, 2, 3])]⟩

/-- alice alone, already joined to room a. -/
def joinedState : ServerState :=
  ⟨[(1, ⟨"u1", "alice", "a"⟩)], [("a", [1])]⟩

/-- Every transport open. -/
def allOpen : Nat → Bool := fun _ => true

/-- Every transport open except connection 2, which is closed. -/
def openExcept2 : Nat → Bool := fun c => decide (c ≠ 2)

/-! ### Lemmas about the registry operations -/

theorem alistGet_set_self {α β : Type} [DecidableEq α] (m : List (α × β)) (k : α) (v : β) :
    alistGet (alistSet m k v) k = some v := by
  induction m with
  | nil => simp [alistSet, alistGet]
  | cons p rest ih =>
      by_cases h : p.1 = k
      · simp [alistSet, alistGet, h]
      · simp [alistSet, alistGet, h, ih]

theorem alistGet_set_ne {α β : Type} [DecidableEq α] (m : List (α × β)) (k k' : α) (v : β)
    (h : k' ≠ k) : alistGet (alistSet m k v) k' = alistGet m k' := by
  induction m with
  | nil => simp [alistSet, alistGet, Ne.symm h]
  | cons p rest ih =>
      by_cases hp : p.1 = k
      · simp [alistSet, alistGet, hp, Ne.symm h]
      · by_cases hp' : p.1 = k'
        · simp [alistSet, alistGet, hp, hp', h]
        · simp [alistSet, alistGet, hp, hp', h, ih]

theorem alistGet_delete_self {α β : Type} [DecidableEq α] (m : List (α × β)) (k : α) :
    alistGet (alistDelete m k) k = none := by
  induction m with
  | nil => simp [alistDelete, alistGet]
  | cons p rest ih =>
      by_cases h : p.1 = k
      · simp [alistDelete, h, ih]
      · simp [alistDelete, alistGet, h, ih]

theorem alistGet_delete_ne {α β : Type} [DecidableEq α] (m : List (α × β)) (k k' : α)
    (h : k' ≠ k) : alistGet (alistDelete m k) k' = alistGet m k' := by
  induction m with
  | nil => simp [alistDelete]
  | cons p rest ih =>
      by_cases hp : p.1 = k
      · simp [alistDelete, alistGet, hp, Ne.symm h, ih]
      · simp [alistDelete, alistGet, hp, ih]

theorem alistGet_modify_self {α β : Type} [DecidableEq α] (m : List (α × β)) (k : α)
    (f : β → β) : alistGet (alistModify m k f) k = (alistGet m k).map f := by
  induction m with
  | nil => simp [alistModify, alistGet]
  | cons p rest ih =>
      by_cases h : p.1 = k
      · simp [alistModify, alistGet, h]
      · simp [alistModify, alistGet, h] at ih ⊢; exact ih

theorem alistGet_modify_ne {α β : Type} [DecidableEq α] (m : List (α × β)) (k k' : α)
    (f : β → β) (h : k' ≠ k) : alistGet (alistModify m k f) k' = alistGet m k' := by
  induction m with
  | nil => simp [alistModify, alistGet]
  | cons p rest ih =>
      by_cases hp : p.1 = k
      · simp only [alistModify, List.map_cons, hp, if_pos rfl] at ih ⊢
        simp [alistGet, hp, Ne.symm h, ih]
      · by_cases hp' : p.1 = k'
        · simp only [alistModify, List.map_cons, if_neg hp] at ih ⊢
          simp [alistGet, hp', ih]
        · simp only [alistModify, List.map_cons, if_neg hp] at ih ⊢
          simp [alistGet, hp', ih]

theorem alistGet_mem {α β : Type} [DecidableEq α] (m : List (α × β)) (k : α) (v : β)
    (h : alistGet m k = some v) : (k, v) ∈ m := by
  induction m with
  | nil => simp [alistGet] at h
  | cons p rest ih =>
      by_cases hp : p.1 = k
      · simp [alistGet, hp] at h
        simp [← hp, ← h]
      · simp [alistGet, hp] at h
        exact List.mem_cons_of_mem p (ih h)

theorem alistHas_eq_true {α β : Type} [DecidableEq α] (m : List (α × β)) (k : α) (v : β)
    (h : alistGet m k = some v) : alistHas m k = true := by
  simp [alistHas, h]

theorem alistHas_eq_false {α β : Type} [DecidableEq α] (m : List (α × β)) (k : α)
    (h : alistHas m k = false) : alistGet m k = none := by
  simp [alistHas] at h
  exact Option.eq_none_iff_forall_not_mem.mpr (by simp [h])

theorem alistHas_delete_self {α β : Type} [DecidableEq α] (m : List (α × β)) (k : α) :
    alistHas (alistDelete m k) k = false := by
  simp [alistHas, alistGet_delete_self]

theorem mem_alistSet {α β : Type} [DecidableEq α] (m : List (α × β)) (k : α) (v : β)
    (p : α × β) (h : p ∈ alistSet m k v) : p ∈ m ∨ p = (k, v) := by
  induction m with
  | nil => simp [alistSet] at h; simp [h]
  | cons q rest ih =>
      by_cases hq : q.1 = k
      · simp [alistSet, hq] at h
        rcases h with h | h
        · right; exact h
        · left; exact List.mem_cons_of_mem q h
      · simp [alistSet, hq] at h
        rcases h with h | h
        · left; simp [h]
        · rcases ih h with h' | h'
          · left; exact List.mem_cons_of_mem q h'
          · right; exact h'

theorem mem_alistModify {α β : Type} [DecidableEq α] (m : List (α × β)) (k : α) (f : β → β)
    (p : α × β) (h : p ∈ alistModify m k f) :
    ∃ q ∈ m, p = if q.1 = k then (q.1, f q.2) else q := by
  rcases List.mem_map.mp h with ⟨q, hq, hpq⟩
  exact ⟨q, hq, hpq.symm⟩

theorem mem_alistDelete {α β : Type} [DecidableEq α] (m : List (α × β)) (k : α)
    (p : α × β) (h : p ∈ alistDelete m k) : p ∈ m := by
  induction m with
  | nil => simp [alistDelete] at h
  | cons q rest ih =>
      by_cases hq : q.1 = k
      · simp [alistDelete, hq] at h
        exact List.mem_cons_of_mem q (ih h)
      · simp [alistDelete, hq] at h
        rcases h with h | h
        · simp [h]
        · exact List.mem_cons_of_mem q (ih h)

theorem setAdd_ne_nil (l : List Nat) (x : Nat) : setAdd l x ≠ [] := by
  by_cases h : x ∈ l
  · simp only [setAdd, if_pos h]
    intro hnil
    rw [hnil] at h
    simp at h
  · simp [setAdd, h]

theorem setAdd_not_mem (l : List Nat) (x : Nat) (h : x ∉ l) : setAdd l x = l ++ [x] := by
  simp [setAdd, h]

theorem mem_setAdd_self (l : List Nat) (x : Nat) : x ∈ setAdd l x := by
  by_cases h : x ∈ l
  · simp [setAdd, h]
  · simp [setAdd, h]

theorem mem_setDelete (l : List Nat) (x y : Nat) (h : y ∈ setDelete l x) : y ∈ l := by
  induction l with
  | nil => simp [setDelete] at h
  | cons z rest ih =>
      by_cases hz : z = x
      · simp [setDelete, hz] at h
        exact List.mem_cons_of_mem z (ih h)
      · simp [setDelete, hz] at h
        rcases h with h | h
        · simp [h]
        · exact List.mem_cons_of_mem z (ih h)

/-! ### Lemmas about broadcast filtering and target search -/

theorem filter_exclude_none (isOpen : Nat → Bool) (l : List Nat) :
    (l.filter fun c => decide (some c ≠ (none : Option Nat)) && isOpen c) = l.filter isOpen := by
  refine List.filter_congr ?_
  intro c _
  simp

theorem filter_exclude_notin (isOpen : Nat → Bool) (l : List Nat) (ws : Nat) (h : ws ∉ l) :
    (l.filter fun c => decide (some c ≠ some ws) && isOpen c) = l.filter isOpen := by
  refine List.filter_congr ?_
  intro c hc
  have hne : c ≠ ws := fun hh => h (hh ▸ hc)
  simp [hne]

theorem findTarget_eq_none (l : List (Nat × Session)) (tid rid : String) :
    findTarget l tid rid = none ↔ ∀ p ∈ l, ¬(p.2.userId = tid ∧ p.2.roomId = rid) := by
  induction l with
  | nil => simp [findTarget]
  | cons p rest ih =>
      by_cases hp : p.2.userId = tid ∧ p.2.roomId = rid
      · constructor
        · intro h; simp [findTarget, hp] at h
        · intro h; exact absurd hp (h p (by simp))
      · constructor
        · intro h q hq
          rcases List.mem_cons.mp hq with rfl | hq'
          · exact hp
          · simp only [findTarget, if_neg hp] at h
            exact (ih.mp h) q hq'
        · intro h
          simp only [findTarget, if_neg hp]
          exact ih.mpr fun q hq => h q (List.mem_cons_of_mem p hq)

theorem findTarget_eq_some (l : List (Nat × Session)) (tid rid : String) (c : Nat)
    (h : findTarget l tid rid = some c) :
    ∃ info, (c, info) ∈ l ∧ info.userId = tid ∧ info.roomId = rid := by
  induction l with
  | nil => simp [findTarget] at h
  | cons p rest ih =>
      by_cases hp : p.2.userId = tid ∧ p.2.roomId = rid
      · simp [findTarget, hp] at h
        exact ⟨p.2, by simp [← h], hp.1, hp.2⟩
      · simp [findTarget, hp] at h
        rcases ih h with ⟨info, hmem, h1, h2⟩
        exact ⟨info, List.mem_cons_of_mem p hmem, h1, h2⟩

theorem findTarget_append (pre l : List (Nat × Session)) (tid rid : String)
    (h : ∀ p ∈ pre, ¬(p.2.userId = tid ∧ p.2.roomId = rid)) :
    findTarget (pre ++ l) tid rid = findTarget l tid rid := by
  induction pre with
  | nil => simp
  | cons p rest ih =>
      have hp := h p (by simp)
      have hrest : ∀ q ∈ rest, ¬(q.2.userId = tid ∧ q.2.roomId = rid) :=
        fun q hq => h q (List.mem_cons_of_mem p hq)
      simp [findTarget, hp, ih hrest]

/-! ### Further registry lemmas, for the directory invariant -/

theorem mem_alistSet_of_mem {α β : Type} [DecidableEq α] (m : List (α × β)) (k : α) (v : β)
    (p : α × β) (hp : p ∈ m) (hne : p.1 ≠ k) : p ∈ alistSet m k v := by
  induction m with
  | nil => simp at hp
  | cons q rest ih =>
      rcases List.mem_cons.mp hp with rfl | hp'
      · simp [alistSet, hne]
      · by_cases hq : q.1 = k
        · simp [alistSet, hq]
          right
          exact hp'
        · simp [alistSet, hq]
          right
          exact ih hp'

theorem mem_alistModify_of_mem {α β : Type} [DecidableEq α] (m : List (α × β)) (k : α)
    (f : β → β) (p : α × β) (hp : p ∈ m) (hne : p.1 ≠ k) : p ∈ alistModify m k f := by
  have h := List.mem_map_of_mem (fun q => if q.1 = k then (q.1, f q.2) else q) hp
  simpa [alistModify, if_neg hne] using h

theorem mem_alistDelete_ne {α β : Type} [DecidableEq α] (m : List (α × β)) (k : α)
    (p : α × β) (h : p ∈ alistDelete m k) : p ∈ m ∧ p.1 ≠ k := by
  induction m with
  | nil => simp [alistDelete] at h
  | cons q rest ih =>
      by_cases hq : q.1 = k
      · simp only [alistDelete, if_pos hq] at h
        exact ⟨List.mem_cons_of_mem q (ih h).1, (ih h).2⟩
      · simp only [alistDelete, if_neg hq] at h
        rcases List.mem_cons.mp h with rfl | h'
        · exact ⟨List.mem_cons_self _ _, hq⟩
        · exact ⟨List.mem_cons_of_mem q (ih h').1, (ih h').2⟩

theorem alistGet_eq_of_nodup {α β : Type} [DecidableEq α] (m : List (α × β)) (k : α) (v : β)
    (hnd : (m.map Prod.fst).Nodup) (h : alistGet m k = some v) (p : α × β) (hp : p ∈ m)
    (hpk : p.1 = k) : p.2 = v := by
  induction m with
  | nil => simp at hp
  | cons q rest ih =>
      rcases List.mem_cons.mp hp with rfl | hp'
      · simp [alistGet, hpk] at h
        exact h
      · by_cases hq : q.1 = k
        · exfalso
          have hk : p.1 ∈ rest.map Prod.fst := List.mem_map_of_mem Prod.fst hp'
          rw [hpk, ← hq] at hk
          exact (List.nodup_cons.mp (by simpa using hnd)).1 hk
        · simp only [alistGet, if_neg hq] at h
          exact ih (List.nodup_cons.mp (by simpa using hnd)).2 h hp'

theorem keys_alistModify {α β : Type} [DecidableEq α] (m : List (α × β)) (k : α) (f : β → β) :
    (alistModify m k f).map Prod.fst = m.map Prod.fst := by
  unfold alistModify
  rw [List.map_map]
  refine List.map_congr_left ?_
  intro p _
  by_cases hp : p.1 = k <;> simp [hp]

theorem keys_alistSet_nodup {α β : Type} [DecidableEq α] (m : List (α × β)) (k : α) (v : β)
    (h : (m.map Prod.fst).Nodup) : ((alistSet m k v).map Prod.fst).Nodup := by
  induction m with
  | nil => simp [alistSet]
  | cons q rest ih =>
      by_cases hq : q.1 = k
      · have : (alistSet (q :: rest) k v).map Prod.fst = (q :: rest).map Prod.fst := by
          simp [alistSet, hq]
        rw [this]
        exact h
      · simp only [alistSet, if_neg hq, List.map_cons] at h ⊢
        rcases List.nodup_cons.mp h with ⟨hq1, hrest⟩
        refine List.nodup_cons.mpr ⟨?_, ih hrest⟩
        intro hmem
        rcases List.mem_map.mp hmem with ⟨p, hp, hpk⟩
        rcases mem_alistSet rest k v p hp with h' | h'
        · exact hq1 (hpk ▸ List.mem_map_of_mem Prod.fst h')
        · refine hq ?_
          rw [← hpk, h']

theorem keys_alistDelete_sublist {α β : Type} [DecidableEq α] (m : List (α × β)) (k : α) :
    ((alistDelete m k).map Prod.fst).Sublist (m.map Prod.fst) := by
  induction m with
  | nil => simp [alistDelete]
  | cons q rest ih =>
      by_cases hq : q.1 = k
      · simp only [alistDelete, if_pos hq, List.map_cons]
        exact ih.cons _
      · simp only [alistDelete, if_neg hq, List.map_cons]
        exact ih.cons₂ _

theorem alistHas_modify {α β : Type} [DecidableEq α] (m : List (α × β)) (k : α) (f : β → β) :
    alistHas (alistModify m k f) k = alistHas m k := by
  simp [alistHas, alistGet_modify_self]

theorem handleLeave_removes (isOpen : Nat → Bool) (s : ServerState) (ws : Nat) :
    alistGet (handleLeave isOpen s ws).1.clients ws = none := by
  cases hg : alistGet s.clients ws with
  | none => simp [handleLeave, hg]
  | some info =>
      simp only [handleLeave, hg]
      split
      · split
        · exact alistGet_delete_self _ _
        · exact alistGet_delete_self _ _
      · exact alistGet_delete_self _ _

theorem handleLeave_no_session (isOpen : Nat → Bool) (s : ServerState) (ws : Nat)
    (h : alistGet s.clients ws = none) : handleLeave isOpen s ws = (s, []) := by
  simp [handleLeave, h]

/-! ### The claims -/

/-- Claim C3, counterexample: the transport error handler does not funnel
through the leave handler — on a state where connection 1 holds a
session, onError leaves the registries untouched while handleLeave would
clean up, so a disconnection surfaced only as an error event performs no
cleanup. -/
theorem C3_counterexample :
    onError exState 1 ≠ handleLeave allOpen exState 1 := by decide

/-- Claim C3 as amended: an explicit leave message and a transport close
both funnel through handleLeave; the transport error handler only logs,
changing no state and sending nothing; and cleanup takes effect at most
once per connection, since running handleLeave again after it has run is
a no-op that sends nothing. -/
theorem C3_amended_leave_funnel (isOpen : Nat → Bool) (s : ServerState) (ws : Nat)
    (fid : String) :
    onMessage isOpen s ws (some ClientMsg.leave) fid = handleLeave isOpen s ws ∧
    onClose isOpen s ws = handleLeave isOpen s ws ∧
    onError s ws = (s, []) ∧
    handleLeave isOpen (handleLeave isOpen s ws).1 ws = ((handleLeave isOpen s ws).1, []) :=
  ⟨rfl, rfl, rfl, handleLeave_no_session isOpen _ ws (handleLeave_removes isOpen s ws)⟩

/-- Claim C7: leave is idempotent — after one handleLeave, a second
handleLeave (or the close-event cleanup) changes nothing and sends
nothing; and cleanup of a connection that never had a session is a
no-op on the registries with no sends. -/
theorem C7_leave_idempotent (isOpen : Nat → Bool) (s : ServerState) (ws : Nat) :
    handleLeave isOpen (handleLeave isOpen s ws).1 ws = ((handleLeave isOpen s ws).1, []) ∧
    onClose isOpen (handleLeave isOpen s ws).1 ws = ((handleLeave isOpen s ws).1, []) ∧
    (alistGet s.clients ws = none → handleLeave isOpen s ws = (s, [])) := by
  have h := handleLeave_no_session isOpen _ ws (handleLeave_removes isOpen s ws)
  exact ⟨h, h, fun hn => handleLeave_no_session isOpen s ws hn⟩

/-- Claim C7, witness: connection 9 never had a session in exState, so
its cleanup is a no-op; and a second leave of connection 1 after its
first leave is a no-op. -/
theorem C7_witness :
    alistGet exState.clients 9 = none ∧
    handleLeave allOpen exState 9 = (exState, []) ∧
    handleLeave allOpen (handleLeave allOpen exState 1).1 1 =
      ((handleLeave allOpen exState 1).1, []) :=
  ⟨by decide, (C7_leave_idempotent allOpen exState 9).2.2 (by decide),
   (C7_leave_idempotent allOpen exState 1).1⟩

/-- Claim C9: a malformed inbound payload is caught per message — the
state is unchanged and nothing is sent — and the processing of any
subsequent message stream is exactly what it would have been had the
malformed message never arrived. -/
theorem C9_malformed_discarded (isOpen : Nat → Bool) (s : ServerState) (ws : Nat)
    (fid : String) (rest : List (Nat × Option ClientMsg × String)) :
    onMessage isOpen s ws none fid = (s, []) ∧
    processMessages isOpen ((ws, none, fid) :: rest) s = processMessages isOpen rest s := by
  constructor
  · rfl
  · simp [processMessages, onMessage]

theorem handleJoin_state (isOpen : Nat → Bool) (s : ServerState) (ws : Nat)
    (username roomId userId : String) :
    (handleJoin isOpen s ws username roomId userId).1 =
      ⟨alistSet s.clients ws ⟨userId, username, roomId⟩,
       alistModify (if alistHas s.rooms roomId then s.rooms else alistSet s.rooms roomId [])
         roomId (fun m => setAdd m ws)⟩ := rfl

theorem handleJoin_trace (isOpen : Nat → Bool) (s : ServerState) (ws : Nat)
    (username roomId userId : String) :
    (handleJoin isOpen s ws username roomId userId).2 =
      (ws, ServerMsg.roomJoined roomId userId
          ((((alistGet (handleJoin isOpen s ws username roomId userId).1.rooms
                roomId).getD []).filter fun c => decide (c ≠ ws)).map
            (infoOf (handleJoin isOpen s ws username roomId userId).1.clients)))
        :: (broadcastToRoom isOpen (handleJoin isOpen s ws username roomId userId).1 roomId
              (ServerMsg.userJoined userId username) (some ws)
            ++ updateUserList isOpen (handleJoin isOpen s ws username roomId userId).1
              roomId) := rfl

/-- Claim C1, counterexample: connection 1 is JOINED in room a, yet a
further join message for room b is processed as a fresh join — the bound
session is reassigned to room b with a new userId, and a reply is sent —
contradicting that a further join takes no action and that roomId is
never reassigned without leave plus rejoin. -/
theorem C1_counterexample :
    (alistGet (onMessage allOpen joinedState 1
        (some (ClientMsg.join "alice" "b")) "u2").1.clients 1).map Session.roomId =
      some "b" ∧
    (onMessage allOpen joinedState 1 (some (ClientMsg.join "alice" "b")) "u2").2 ≠ [] := by
  decide

/-- Claim C1 as amended: a join received while already JOINED is handled
exactly like a fresh join — the session is rebound to the supplied
username, the new roomId and the freshly generated userId; the
connection is added to the member set of the new room, while every
entry of any other room is left in place (so it is not removed from its
old room); and the usual sends are performed: first the room-joined
reply to the connection, then the user-joined notification to every
other open member of the new room, then a user-list message to every
open member of the new room. -/
theorem C1_amended_rejoin_rebinds (isOpen : Nat → Bool) (s : ServerState) (ws : Nat)
    (username roomId userId : String) (old : Session)
    (_h : alistGet s.clients ws = some old) :
    alistGet (handleJoin isOpen s ws username roomId userId).1.clients ws =
      some ⟨userId, username, roomId⟩ ∧
    ws ∈ (alistGet (handleJoin isOpen s ws username roomId userId).1.rooms roomId).getD [] ∧
    (∀ p ∈ s.rooms, p.1 ≠ roomId →
      p ∈ (handleJoin isOpen s ws username roomId userId).1.rooms) ∧
    (∃ us, (handleJoin isOpen s ws username roomId userId).2.head? =
      some (ws, ServerMsg.roomJoined roomId userId us)) ∧
    (∀ c ∈ (alistGet (handleJoin isOpen s ws username roomId userId).1.rooms roomId).getD [],
      c ≠ ws → isOpen c = true →
      (c, ServerMsg.userJoined userId username) ∈
        (handleJoin isOpen s ws username roomId userId).2) ∧
    (∀ c ∈ (alistGet (handleJoin isOpen s ws username roomId userId).1.rooms roomId).getD [],
      isOpen c = true →
      ∃ us, (c, ServerMsg.userList us) ∈
        (handleJoin isOpen s ws username roomId userId).2) := by
  obtain ⟨v, hv⟩ : ∃ v, alistGet (if alistHas s.rooms roomId then s.rooms
      else alistSet s.rooms roomId []) roomId = some v := by
    by_cases hhas : alistHas s.rooms roomId
    · rcases Option.isSome_iff_exists.mp hhas with ⟨v, hv⟩
      exact ⟨v, by simp [hhas, hv]⟩
    · exact ⟨[], by simp [hhas, alistGet_set_self]⟩
  have h2 : alistGet (handleJoin isOpen s ws username roomId userId).1.rooms roomId =
      some (setAdd v ws) := by
    rw [handleJoin_state]
    dsimp only
    rw [alistGet_modify_self, hv]
    rfl
  have hb2 : broadcastToRoom isOpen (handleJoin isOpen s ws username roomId userId).1 roomId
      (ServerMsg.userJoined userId username) (some ws) =
      ((setAdd v ws).filter fun c => decide (some c ≠ some ws) && isOpen c).map
        fun c => (c, ServerMsg.userJoined userId username) := by
    unfold broadcastToRoom
    rw [h2]
  have hu2 : updateUserList isOpen (handleJoin isOpen s ws username roomId userId).1 roomId =
      ((setAdd v ws).filter fun c => decide (some c ≠ (none : Option Nat)) && isOpen c).map
        fun c => (c, ServerMsg.userList ((setAdd v ws).map
          (infoOf (handleJoin isOpen s ws username roomId userId).1.clients))) := by
    unfold updateUserList broadcastToRoom
    rw [h2]
  refine ⟨?_, ?_, ?_, ?_, ?_, ?_⟩
  · rw [handleJoin_state]
    dsimp only
    exact alistGet_set_self _ _ _
  · rw [h2]
    exact mem_setAdd_self v ws
  · intro p hp hne
    rw [handleJoin_state]
    dsimp only
    refine mem_alistModify_of_mem _ roomId _ p ?_ hne
    by_cases hhas : alistHas s.rooms roomId
    · simp [hhas, hp]
    · simp only [hhas, Bool.false_eq_true, ite_false]
      exact mem_alistSet_of_mem _ roomId [] p hp hne
  · exact ⟨_, rfl⟩
  · intro c hc hnw ho
    rw [h2] at hc
    simp only [Option.getD_some] at hc
    rw [handleJoin_trace, hb2]
    refine List.mem_cons_of_mem _ (List.mem_append_left _ ?_)
    refine List.mem_map.mpr ⟨c, List.mem_filter.mpr ⟨hc, ?_⟩, rfl⟩
    simp [hnw, ho]
  · intro c hc ho
    rw [h2] at hc
    simp only [Option.getD_some] at hc
    rw [handleJoin_trace, hu2]
    refine ⟨(setAdd v ws).map
        (infoOf (handleJoin isOpen s ws username roomId userId).1.clients),
      List.mem_cons_of_mem _ (List.mem_append_right _ ?_)⟩
    refine List.mem_map.mpr ⟨c, List.mem_filter.mpr ⟨hc, ?_⟩, rfl⟩
    simp [ho]

/-- Claim C1 as amended, witness: alice rejoins from room a into room b;
her session now carries room b and the new id u2, connection 1 is a
member of room b, room a still lists her connection, the reply is the
room-joined message for room b, and the notification and user-list
sends reach the open members of room b. -/
theorem C1_amended_witness :
    alistGet joinedState.clients 1 = some ⟨"u1", "alice", "a"⟩ ∧
    (alistGet (handleJoin allOpen joinedState 1 "alice" "b" "u2").1.clients 1 =
        some ⟨"u2", "alice", "b"⟩ ∧
      1 ∈ (alistGet (handleJoin allOpen joinedState 1 "alice" "b" "u2").1.rooms "b").getD [] ∧
      (∀ p ∈ joinedState.rooms, p.1 ≠ "b" →
        p ∈ (handleJoin allOpen joinedState 1 "alice" "b" "u2").1.rooms) ∧
      (∃ us, (handleJoin allOpen joinedState 1 "alice" "b" "u2").2.head? =
        some (1, ServerMsg.roomJoined "b" "u2" us)) ∧
      (∀ c ∈ (alistGet (handleJoin allOpen joinedState 1 "alice" "b" "u2").1.rooms "b").getD [],
        c ≠ 1 → allOpen c = true →
        (c, ServerMsg.userJoined "u2" "alice") ∈
          (handleJoin allOpen joinedState 1 "alice" "b" "u2").2) ∧
      (∀ c ∈ (alistGet (handleJoin allOpen joinedState 1 "alice" "b" "u2").1.rooms "b").getD [],
        allOpen c = true →
        ∃ us, (c, ServerMsg.userList us) ∈
          (handleJoin allOpen joinedState 1 "alice" "b" "u2").2)) :=
  ⟨by decide,
   C1_amended_rejoin_rebinds allOpen joinedState 1 "alice" "b" "u2" ⟨"u1", "alice", "a"⟩
     (by decide)⟩

/-- Claim C2: for a signal from a connection with a bound session, the
state is unchanged, at most one send happens, a send happens exactly
when some registry entry matches the target id within the room of the
sender, every send carries exactly the signal message stamped with the
sender id and goes to a connection whose session matches the target id
and the room of the sender; with no matching target the message is
dropped with no reply. -/
theorem C2_signal_routing (s : ServerState) (ws : Nat) (targetId payload : String)
    (sender : Session) (h : alistGet s.clients ws = some sender) :
    ((∃ p ∈ s.clients, p.2.userId = targetId ∧ p.2.roomId = sender.roomId) ↔
      (handleSignal s ws targetId payload).2 ≠ []) ∧
    (handleSignal s ws targetId payload).1 = s ∧
    (handleSignal s ws targetId payload).2.length ≤ 1 ∧
    (∀ e ∈ (handleSignal s ws targetId payload).2,
      e.2 = ServerMsg.signal sender.userId payload ∧
      ∃ info, (e.1, info) ∈ s.clients ∧ info.userId = targetId ∧
        info.roomId = sender.roomId) := by
  have hs : handleSignal s ws targetId payload =
      (match findTarget s.clients targetId sender.roomId with
       | none => (s, [])
       | some c => (s, [(c, ServerMsg.signal sender.userId payload)])) := by
    simp [handleSignal, h]
  cases hf : findTarget s.clients targetId sender.roomId with
  | none =>
      rw [hf] at hs
      rw [hs]
      refine ⟨?_, rfl, by simp, by simp⟩
      constructor
      · rintro ⟨p, hp, hmatch⟩
        exact absurd hmatch ((findTarget_eq_none _ _ _).mp hf p hp)
      · intro hne
        simp at hne
  | some c =>
      rw [hf] at hs
      rw [hs]
      rcases findTarget_eq_some _ _ _ _ hf with ⟨info, hmem, h1, h2⟩
      refine ⟨⟨fun _ => by simp, fun _ => ⟨(c, info), hmem, h1, h2⟩⟩, rfl, by simp, ?_⟩
      intro e he
      simp only [List.mem_singleton] at he
      subst he
      exact ⟨rfl, info, hmem, h1, h2⟩

/-- Claim C2, witness: alice signals bob in room r of exState — the
message reaches exactly connection 2 as a signal stamped with u1, the
state is unchanged, and all four clauses hold at this input. -/
theorem C2_witness :
    alistGet exState.clients 1 = some ⟨"u1", "alice", "r"⟩ ∧
    (((∃ p ∈ exState.clients, p.2.userId = "u2" ∧
        p.2.roomId = Session.roomId ⟨"u1", "alice", "r"⟩) ↔
      (handleSignal exState 1 "u2" "x").2 ≠ []) ∧
    (handleSignal exState 1 "u2" "x").1 = exState ∧
    (handleSignal exState 1 "u2" "x").2.length ≤ 1 ∧
    (∀ e ∈ (handleSignal exState 1 "u2" "x").2,
      e.2 = ServerMsg.signal (Session.userId ⟨"u1", "alice", "r"⟩) "x" ∧
      ∃ info, (e.1, info) ∈ exState.clients ∧ info.userId = "u2" ∧
        info.roomId = Session.roomId ⟨"u1", "alice", "r"⟩)) :=
  ⟨by decide, C2_signal_routing exState 1 "u2" "x" ⟨"u1", "alice", "r"⟩ (by decide)⟩

/-- Claim C10: when the registry holds, after a prefix with no matching
entry, a matching entry for the target followed somewhere later by
another matching entry, the signal is delivered exactly once, to the
earlier matching connection in registry insertion order. -/
theorem C10_first_match_wins (s : ServerState) (ws : Nat) (targetId payload : String)
    (sender info : Session) (c : Nat) (pre rest : List (Nat × Session))
    (h : alistGet s.clients ws = some sender)
    (hsplit : s.clients = pre ++ (c, info) :: rest)
    (hpre : ∀ p ∈ pre, ¬(p.2.userId = targetId ∧ p.2.roomId = sender.roomId))
    (hmatch : info.userId = targetId ∧ info.roomId = sender.roomId)
    (_hdup : ∃ q ∈ rest, q.2.userId = targetId ∧ q.2.roomId = sender.roomId) :
    (handleSignal s ws targetId payload).2 =
      [(c, ServerMsg.signal sender.userId payload)] := by
  have hf : findTarget s.clients targetId sender.roomId = some c := by
    rw [hsplit, findTarget_append pre _ _ _ hpre]
    simp [findTarget, hmatch.1, hmatch.2]
  simp [handleSignal, h, hf]

/-- Claim C10, witness: in dupState both connections 2 and 3 carry
userId uX in room r; the signal from alice to uX is delivered only to
connection 2, the earlier entry of the registry. -/
theorem C10_witness :
    alistGet dupState.clients 1 = some ⟨"u1", "alice", "r"⟩ ∧
    dupState.clients =
      [(1, ⟨"u1", "alice", "r"⟩)] ++ (2, ⟨"uX", "bob", "r"⟩) :: [(3, ⟨"uX", "carol", "r"⟩)] ∧
    (handleSignal dupState 1 "uX" "x").2 = [(2, ServerMsg.signal "u1" "x")] :=
  ⟨by decide, by decide,
   C10_first_match_wins dupState 1 "uX" "x" ⟨"u1", "alice", "r"⟩ ⟨"uX", "bob", "r"⟩ 2
     [(1, ⟨"u1", "alice", "r"⟩)] [(3, ⟨"uX", "carol", "r"⟩)]
     (by decide) (by decide) (by decide) (by decide)
     ⟨(3, ⟨"uX", "carol", "r"⟩), by decide, by decide⟩⟩

/-- Claim C8, counterexample: in the world where connection 2 is not
open, the direct delivery of a signal addressed to bob still performs a
send to connection 2 — handleSignal consults no transport state, so a
non-open target is not skipped. -/
theorem C8_counterexample :
    (2, ServerMsg.signal "u1" "x") ∈ (handleSignal exState 1 "u2" "x").2 ∧
    openExcept2 2 = false := by decide

/-- Claim C8 as amended: room broadcasts silently skip every recipient
whose transport is not open (and the excluded connection), with nothing
queued or retried; but the direct delivery of a signal payload performs
no transport-state check — the send to the matched target happens
independently of any openness predicate. -/
theorem C8_amended_skip_closed (isOpen : Nat → Bool) (s : ServerState) (roomId : String)
    (msg : ServerMsg) (ex : Option Nat) (ws c : Nat) (targetId payload : String)
    (sender : Session) :
    (∀ e ∈ broadcastToRoom isOpen s roomId msg ex, isOpen e.1 = true ∧ some e.1 ≠ ex) ∧
    (alistGet s.clients ws = some sender →
      findTarget s.clients targetId sender.roomId = some c →
      (handleSignal s ws targetId payload).2 =
        [(c, ServerMsg.signal sender.userId payload)]) := by
  constructor
  · intro e he
    unfold broadcastToRoom at he
    cases hg : alistGet s.rooms roomId with
    | none => rw [hg] at he; simp at he
    | some members =>
        rw [hg] at he
        simp only [List.mem_map, List.mem_filter] at he
        rcases he with ⟨a, ⟨_, ha⟩, rfl⟩
        simp only [Bool.and_eq_true, decide_eq_true_eq] at ha
        exact ⟨ha.2, ha.1⟩
  · intro h hf
    simp [handleSignal, h, hf]

/-- Claim C8 as amended, witness: with connection 2 closed, the
user-left broadcast in room r reaches only the open connection 1, while
the direct signal to bob is still sent to the closed connection 2. -/
theorem C8_witness :
    openExcept2 1 = true ∧ some 1 ≠ (none : Option Nat) ∧
    (handleSignal exState 1 "u2" "x").2 = [(2, ServerMsg.signal "u1" "x")] :=
  ⟨((C8_amended_skip_closed openExcept2 exState "r" (ServerMsg.userLeft "u1" "alice") none
      1 2 "u2" "x" ⟨"u1", "alice", "r"⟩).1 (1, ServerMsg.userLeft "u1" "alice")
      (by decide)).1,
   ((C8_amended_skip_closed openExcept2 exState "r" (ServerMsg.userLeft "u1" "alice") none
      1 2 "u2" "x" ⟨"u1", "alice", "r"⟩).1 (1, ServerMsg.userLeft "u1" "alice")
      (by decide)).2,
   (C8_amended_skip_closed openExcept2 exState "r" (ServerMsg.userLeft "u1" "alice") none
      1 2 "u2" "x" ⟨"u1", "alice", "r"⟩).2 (by decide) (by decide)⟩

theorem handleSignal_state (s : ServerState) (ws : Nat) (targetId payload : String) :
    (handleSignal s ws targetId payload).1 = s := by
  cases hg : alistGet s.clients ws with
  | none => simp [handleSignal, hg]
  | some sender =>
      cases hf : findTarget s.clients targetId sender.roomId <;>
        simp [handleSignal, hg, hf]

theorem handleLeave_state_member (isOpen : Nat → Bool) (s : ServerState) (ws : Nat)
    (info : Session) (members0 : List Nat)
    (hg : alistGet s.clients ws = some info)
    (hr : alistGet s.rooms info.roomId = some members0) :
    (handleLeave isOpen s ws).1 =
      if (setDelete members0 ws).isEmpty then
        ⟨alistDelete s.clients ws,
         alistDelete (alistModify s.rooms info.roomId fun m => setDelete m ws) info.roomId⟩
      else
        ⟨alistDelete s.clients ws, alistModify s.rooms info.roomId fun m => setDelete m ws⟩ := by
  have hhas : alistHas s.rooms info.roomId = true := by simp [alistHas, hr]
  have hget : alistGet (alistModify s.rooms info.roomId fun m => setDelete m ws) info.roomId
      = some (setDelete members0 ws) := by
    rw [alistGet_modify_self, hr]
    rfl
  simp only [handleLeave, hg, hhas, hget, Option.getD_some, if_true]
  split <;> rfl

theorem handleLeave_trace_member (isOpen : Nat → Bool) (s : ServerState) (ws : Nat)
    (info : Session) (members0 : List Nat)
    (hg : alistGet s.clients ws = some info)
    (hr : alistGet s.rooms info.roomId = some members0) :
    (handleLeave isOpen s ws).2 =
      if (setDelete members0 ws).isEmpty then []
      else
        ((setDelete members0 ws).filter isOpen).map
            (fun c => (c, ServerMsg.userLeft info.userId info.username)) ++
          ((setDelete members0 ws).filter isOpen).map
            (fun c => (c, ServerMsg.userList ((setDelete members0 ws).map (infoOf s.clients)))) := by
  have hhas : alistHas s.rooms info.roomId = true := by simp [alistHas, hr]
  have hget : alistGet (alistModify s.rooms info.roomId fun m => setDelete m ws) info.roomId
      = some (setDelete members0 ws) := by
    rw [alistGet_modify_self, hr]
    rfl
  simp only [handleLeave, hg, hhas, hget, Option.getD_some, if_true]
  split
  · rfl
  · simp only [broadcastToRoom, updateUserList, hget, filter_exclude_none]

theorem roomsWF_handleJoin (isOpen : Nat → Bool) (s : ServerState) (ws : Nat)
    (username roomId userId : String) (h : roomsWF s) :
    roomsWF (handleJoin isOpen s ws username roomId userId).1 := by
  rw [handleJoin_state]
  dsimp only [roomsWF]
  constructor
  · rw [keys_alistModify]
    by_cases hhas : alistHas s.rooms roomId
    · simpa [hhas] using h.1
    · simp only [hhas, Bool.false_eq_true, ite_false]
      exact keys_alistSet_nodup _ _ _ h.1
  · intro p hp
    rcases mem_alistModify _ roomId _ p hp with ⟨q, hq, hpq⟩
    by_cases hqk : q.1 = roomId
    · rw [hpq, if_pos hqk]
      exact setAdd_ne_nil _ _
    · rw [hpq, if_neg hqk]
      by_cases hhas : alistHas s.rooms roomId
      · rw [if_pos hhas] at hq
        exact h.2 q hq
      · rw [if_neg (by simpa using hhas)] at hq
        rcases mem_alistSet s.rooms roomId [] q hq with hq' | hq'
        · exact h.2 q hq'
        · exact absurd (by rw [hq']) hqk

theorem roomsWF_handleLeave (isOpen : Nat → Bool) (s : ServerState) (ws : Nat)
    (h : roomsWF s) : roomsWF (handleLeave isOpen s ws).1 := by
  cases hg : alistGet s.clients ws with
  | none => simpa [handleLeave, hg] using h
  | some info =>
      by_cases hhas : alistHas s.rooms info.roomId
      · rcases Option.isSome_iff_exists.mp hhas with ⟨members0, hr⟩
        rw [handleLeave_state_member isOpen s ws info members0 hg hr]
        by_cases hemp : (setDelete members0 ws).isEmpty
        · rw [if_pos hemp]
          dsimp only [roomsWF]
          constructor
          · exact (keys_alistDelete_sublist _ _).nodup
              (by rw [keys_alistModify]; exact h.1)
          · intro p hp
            rcases mem_alistDelete_ne _ _ p hp with ⟨hp1, hp2⟩
            rcases mem_alistModify _ _ _ p hp1 with ⟨q, hq, hpq⟩
            by_cases hqk : q.1 = info.roomId
            · exfalso
              rw [hpq, if_pos hqk] at hp2
              exact hp2 hqk
            · rw [hpq, if_neg hqk]
              exact h.2 q hq
        · rw [if_neg hemp]
          dsimp only [roomsWF]
          constructor
          · rw [keys_alistModify]
            exact h.1
          · intro p hp
            rcases mem_alistModify _ _ _ p hp with ⟨q, hq, hpq⟩
            by_cases hqk : q.1 = info.roomId
            · rw [hpq, if_pos hqk]
              dsimp only
              have hq2 : q.2 = members0 := alistGet_eq_of_nodup s.rooms info.roomId members0
                h.1 hr q hq hqk
              rw [hq2]
              intro hnil
              rw [hnil] at hemp
              simp at hemp
            · rw [hpq, if_neg hqk]
              exact h.2 q hq
      · have : (handleLeave isOpen s ws).1 = ⟨alistDelete s.clients ws, s.rooms⟩ := by
          simp only [handleLeave, hg]
          rw [if_neg (by simpa using hhas)]
        rw [this]
        exact h

/-- Claim C4: processing any message preserves the directory invariant
that every room entry has a non-empty member set (with the Map keys
pairwise distinct), so a room identifier is present exactly when it has
a member; moreover a join always leaves the named room present in the
directory, and a leave whose removal empties the member set of the room
of the leaver removes that room entry itself. -/
theorem C4_room_iff_nonempty (isOpen : Nat → Bool) (s : ServerState) (ws : Nat)
    (raw : Option ClientMsg) (fid : String) (hinv : roomsWF s) :
    roomsWF (onMessage isOpen s ws raw fid).1 ∧
    (∀ username roomId userId,
      alistHas (handleJoin isOpen s ws username roomId userId).1.rooms roomId = true) ∧
    (∀ info, alistGet s.clients ws = some info →
      setDelete ((alistGet s.rooms info.roomId).getD []) ws = [] →
      alistHas (handleLeave isOpen s ws).1.rooms info.roomId = false) := by
  refine ⟨?_, ?_, ?_⟩
  · cases raw with
    | none => exact hinv
    | some m =>
        cases m with
        | join username roomId => exact roomsWF_handleJoin isOpen s ws username roomId fid hinv
        | signal targetId payload =>
            show roomsWF (handleSignal s ws targetId payload).1
            rw [handleSignal_state]
            exact hinv
        | leave => exact roomsWF_handleLeave isOpen s ws hinv
        | unknown ty => exact hinv
  · intro username roomId userId
    rw [handleJoin_state]
    dsimp only
    rw [alistHas_modify]
    by_cases hhas : alistHas s.rooms roomId
    · simp [hhas]
    · simp only [hhas, Bool.false_eq_true, ite_false]
      simp [alistHas, alistGet_set_self]
  · intro info hg hdel
    by_cases hhas : alistHas s.rooms info.roomId
    · rcases Option.isSome_iff_exists.mp hhas with ⟨members0, hr⟩
      rw [hr] at hdel
      simp only [Option.getD_some] at hdel
      rw [handleLeave_state_member isOpen s ws info members0 hg hr]
      rw [if_pos (by simp [hdel])]
      exact alistHas_delete_self _ _
    · have : (handleLeave isOpen s ws).1 = ⟨alistDelete s.clients ws, s.rooms⟩ := by
        simp only [handleLeave, hg]
        rw [if_neg (by simpa using hhas)]
      rw [this]
      simpa using hhas

/-- Claim C4, witness: processing the join of dan into room q of exState
preserves the directory invariant; any join leaves its room present; and
the leave of carol, the last member of room q, removes the entry of
room q. -/
theorem C4_witness :
    roomsWF exState ∧
    (roomsWF (onMessage allOpen exState 9 (some (ClientMsg.join "dan" "q")) "u9").1 ∧
      (∀ username roomId userId,
        alistHas (handleJoin allOpen exState 9 username roomId userId).1.rooms roomId = true) ∧
      (∀ info, alistGet exState.clients 9 = some info →
        setDelete ((alistGet exState.rooms info.roomId).getD []) 9 = [] →
        alistHas (handleLeave allOpen exState 9).1.rooms info.roomId = false)) ∧
    alistGet exState.clients 3 = some ⟨"u3", "carol", "q"⟩ ∧
    setDelete ((alistGet exState.rooms (Session.roomId ⟨"u3", "carol", "q"⟩)).getD []) 3 = [] ∧
    alistHas (handleLeave allOpen exState 3).1.rooms (Session.roomId ⟨"u3", "carol", "q"⟩) =
      false :=
  ⟨by decide,
   C4_room_iff_nonempty allOpen exState 9 (some (ClientMsg.join "dan" "q")) "u9" (by decide),
   by decide, by decide,
   (C4_room_iff_nonempty allOpen exState 3 none "zz" (by decide)).2.2
     ⟨"u3", "carol", "q"⟩ (by decide) (by decide)⟩

/-- Claim C5: when a session holder leaves its room, if members remain
after the removal the performed sends are exactly one user-left message
carrying the departed userId and username to each remaining open member,
followed by one user-list message to each remaining open member whose
users are exactly the roster entries of the remaining members, in that
order; if nobody remains, nothing is sent at all. -/
theorem C5_leave_notifies_remaining (isOpen : Nat → Bool) (s : ServerState) (ws : Nat)
    (uid uname rid : String) (members0 : List Nat)
    (hc : alistGet s.clients ws = some ⟨uid, uname, rid⟩)
    (hr : alistGet s.rooms rid = some members0) :
    (setDelete members0 ws ≠ [] →
      (handleLeave isOpen s ws).2 =
        ((setDelete members0 ws).filter isOpen).map
            (fun c => (c, ServerMsg.userLeft uid uname)) ++
          ((setDelete members0 ws).filter isOpen).map
            (fun c => (c, ServerMsg.userList
              ((setDelete members0 ws).map (infoOf s.clients))))) ∧
    (setDelete members0 ws = [] → (handleLeave isOpen s ws).2 = []) := by
  have ht := handleLeave_trace_member isOpen s ws ⟨uid, uname, rid⟩ members0 hc hr
  constructor
  · intro hne
    rw [ht, if_neg (by simp [hne])]
  · intro heq
    rw [ht, if_pos (by simp [heq])]

/-- Claim C5, witness: alice leaves room r of exState while bob remains —
bob receives the user-left for alice and then the user-list naming only
bob; and in the one-member room q the departure of carol sends nothing. -/
theorem C5_witness :
    (alistGet exState.clients 1 = some ⟨"u1", "alice", "r"⟩ ∧
      alistGet exState.rooms "r" = some [1, 2] ∧ setDelete [1, 2] 1 ≠ [] ∧
      (handleLeave allOpen exState 1).2 =
        ((setDelete [1, 2] 1).filter allOpen).map
            (fun c => (c, ServerMsg.userLeft "u1" "alice")) ++
          ((setDelete [1, 2] 1).filter allOpen).map
            (fun c => (c, ServerMsg.userList
              ((setDelete [1, 2] 1).map (infoOf exState.clients))))) ∧
    (alistGet exState.clients 3 = some ⟨"u3", "carol", "q"⟩ ∧
      alistGet exState.rooms "q" = some [3] ∧ setDelete [3] 3 = [] ∧
      (handleLeave allOpen exState 3).2 = []) :=
  ⟨⟨by decide, by decide, by decide,
    (C5_leave_notifies_remaining allOpen exState 1 "u1" "alice" "r" [1, 2]
      (by decide) (by decide)).1 (by decide)⟩,
   ⟨by decide, by decide, by decide,
    (C5_leave_notifies_remaining allOpen exState 3 "u3" "carol" "q" [3]
      (by decide) (by decide)).2 (by decide)⟩⟩

/-- Claim C6: a join from an unidentified connection (in a state whose
room members are all registered) first sends the sender a room-joined
reply carrying the joined roomId, the freshly generated userId and the
roster of the members present before the join — an empty list when the
room did not yet exist — and only afterwards the user-joined
notification to the open pre-existing members and the refreshed
user-list to the whole open room including the newcomer. -/
theorem C6_join_reply_then_notify (isOpen : Nat → Bool) (s : ServerState) (ws : Nat)
    (username roomId userId : String)
    (hws : alistGet s.clients ws = none)
    (hreg : ∀ p ∈ s.rooms, ∀ c ∈ p.2, (alistGet s.clients c).isSome = true) :
    (handleJoin isOpen s ws username roomId userId).2 =
      (ws, ServerMsg.roomJoined roomId userId
          (((alistGet s.rooms roomId).getD []).map (infoOf s.clients)))
        :: (((((alistGet s.rooms roomId).getD []).filter isOpen).map
              fun c => (c, ServerMsg.userJoined userId username))
            ++ (((((alistGet s.rooms roomId).getD []) ++ [ws]).filter isOpen).map
              fun c => (c, ServerMsg.userList
                ((((alistGet s.rooms roomId).getD []).map (infoOf s.clients)) ++
                  [⟨userId, username⟩])))) ∧
    (alistGet s.rooms roomId = none →
      (handleJoin isOpen s ws username roomId userId).2.head? =
        some (ws, ServerMsg.roomJoined roomId userId [])) := by
  have hpre : ∀ c ∈ (alistGet s.rooms roomId).getD [], (alistGet s.clients c).isSome = true := by
    cases hq : alistGet s.rooms roomId with
    | none => simp
    | some v =>
        simp only [Option.getD_some]
        exact hreg (roomId, v) (alistGet_mem _ _ _ hq)
  have hprew : ws ∉ (alistGet s.rooms roomId).getD [] := by
    intro hmem
    have hsome := hpre ws hmem
    rw [hws] at hsome
    simp at hsome
  have h1 : alistGet (if alistHas s.rooms roomId then s.rooms else alistSet s.rooms roomId [])
      roomId = some ((alistGet s.rooms roomId).getD []) := by
    by_cases hhas : alistHas s.rooms roomId
    · rcases Option.isSome_iff_exists.mp hhas with ⟨v, hv⟩
      simp [hhas, hv]
    · have hnone : alistGet s.rooms roomId = none :=
        alistHas_eq_false _ _ (by simpa using hhas)
      simp [hhas, hnone, alistGet_set_self]
  have h2 : alistGet (alistModify (if alistHas s.rooms roomId then s.rooms
        else alistSet s.rooms roomId []) roomId fun m => setAdd m ws) roomId =
      some (((alistGet s.rooms roomId).getD []) ++ [ws]) := by
    rw [alistGet_modify_self, h1]
    simp [setAdd_not_mem _ _ hprew]
  have hinfo : ∀ c ∈ (alistGet s.rooms roomId).getD [],
      infoOf (alistSet s.clients ws ⟨userId, username, roomId⟩) c = infoOf s.clients c := by
    intro c hc
    have hcw : c ≠ ws := fun heq => hprew (heq ▸ hc)
    unfold infoOf
    rw [alistGet_set_ne _ _ _ _ hcw]
  have hinfow : infoOf (alistSet s.clients ws ⟨userId, username, roomId⟩) ws =
      ⟨userId, username⟩ := by
    unfold infoOf
    rw [alistGet_set_self]
  have hfilterne :
      ((((alistGet s.rooms roomId).getD []) ++ [ws]).filter fun c => decide (c ≠ ws)) =
        (alistGet s.rooms roomId).getD [] := by
    rw [List.filter_append]
    have hall : (((alistGet s.rooms roomId).getD []).filter fun c => decide (c ≠ ws)) =
        (alistGet s.rooms roomId).getD [] := by
      refine List.filter_eq_self.mpr ?_
      intro c hc
      have hcw : c ≠ ws := fun heq => hprew (heq ▸ hc)
      simp [hcw]
    rw [hall]
    simp
  have hmapinfo : (((alistGet s.rooms roomId).getD []) ++ [ws]).map
        (infoOf (alistSet s.clients ws ⟨userId, username, roomId⟩)) =
      (((alistGet s.rooms roomId).getD []).map (infoOf s.clients)) ++ [⟨userId, username⟩] := by
    rw [List.map_append, List.map_congr_left hinfo]
    simp [hinfow]
  have hfilterex :
      ((((alistGet s.rooms roomId).getD []) ++ [ws]).filter
          fun c => decide (some c ≠ some ws) && isOpen c) =
        ((alistGet s.rooms roomId).getD []).filter isOpen := by
    rw [List.filter_append, filter_exclude_notin isOpen _ ws hprew]
    simp
  have hmain : (handleJoin isOpen s ws username roomId userId).2 =
      (ws, ServerMsg.roomJoined roomId userId
          (((alistGet s.rooms roomId).getD []).map (infoOf s.clients)))
        :: (((((alistGet s.rooms roomId).getD []).filter isOpen).map
              fun c => (c, ServerMsg.userJoined userId username))
            ++ (((((alistGet s.rooms roomId).getD []) ++ [ws]).filter isOpen).map
              fun c => (c, ServerMsg.userList
                ((((alistGet s.rooms roomId).getD []).map (infoOf s.clients)) ++
                  [⟨userId, username⟩])))) := by
    simp only [handleJoin, broadcastToRoom, updateUserList]
    rw [h2]
    simp only [Option.getD_some]
    rw [hfilterne, List.map_congr_left hinfo, hfilterex, hmapinfo,
      filter_exclude_none]
    simp
  refine ⟨hmain, ?_⟩
  intro hnone
  rw [hmain, hnone]
  simp

/-- Claim C6, witness: dan joins the existing room r of exState as
connection 9 — the reply lists alice and bob as the pre-existing roster,
then alice and bob are notified and the whole room receives the
refreshed list; and a join into the fresh room z of the empty state
yields a reply whose users list is empty. -/
theorem C6_witness :
    (alistGet exState.clients 9 = none ∧
      (∀ p ∈ exState.rooms, ∀ c ∈ p.2, (alistGet exState.clients c).isSome = true) ∧
      (handleJoin allOpen exState 9 "dan" "r" "u9").2 =
        (9, ServerMsg.roomJoined "r" "u9"
            (((alistGet exState.rooms "r").getD []).map (infoOf exState.clients)))
          :: (((((alistGet exState.rooms "r").getD []).filter allOpen).map
                fun c => (c, ServerMsg.userJoined "u9" "dan"))
              ++ (((((alistGet exState.rooms "r").getD []) ++ [9]).filter allOpen).map
                fun c => (c, ServerMsg.userList
                  ((((alistGet exState.rooms "r").getD []).map (infoOf exState.clients)) ++
                    [(⟨"u9", "dan"⟩ : UserInfo)]))))) ∧
    (alistGet (ServerState.mk [] []).rooms "z" = none ∧
      (handleJoin allOpen (ServerState.mk [] []) 1 "alice" "z" "u1").2.head? =
        some (1, ServerMsg.roomJoined "z" "u1" [])) :=
  ⟨⟨by decide, by decide,
    (C6_join_reply_then_notify allOpen exState 9 "dan" "r" "u9"
      (by decide) (by decide)).1⟩,
   ⟨by decide,
    (C6_join_reply_then_notify allOpen (ServerState.mk [] []) 1 "alice" "z" "u1"
      (by decide) (by decide)).2 (by decide)⟩⟩
